/-
Verification of the `factories` plugin-registry library
(`factories/factory.py`) against its natural-language specification.

The development shallowly embeds the registry and loading engine:

* Python class objects are `PyClass` values carrying their object identity
  (`id`), their method-resolution-order id set (`mro`, used for
  `issubclass`) and a total attribute table (`attrs`; the collaborator
  contract of the spec, section 6, requires plugins to expose the
  configured identifier/version attributes, so lookup is modelled total).
* Python attribute values are `PyVal`.  Zero-argument calls are the only
  calls the source performs, so callables store the value such a call
  returns.  `boundMethod` models objects for which `inspect.ismethod` is
  true (bound methods, e.g. classmethods accessed on a class);
  `function` models other callables (plain functions, staticmethods).
  Identity of callables is tracked with a numeric id.
* The host interpreter and file system (`os.walk`, `os.path.isdir`,
  `os.path.exists`, `__import__`/`sys.modules`,
  `SourceFileLoader(...).load_module()`, `os.path.realpath`) form the
  environment `Env`.  `loadSource` models the outcome of one direct-load
  attempt: `none` when the load raised (the source catches `Exception`
  there and logs), `some m` when it produced module `m`.
* Exceptions that the source does *not* catch are modelled with
  `Except PyErr`; a fully caught operation is pure.
* Paths are modelled as already forward-slash separated (the source
  normalises backslashes itself); `os.pathsep` is the POSIX `:`.
* Logging has no observable effect on the data model and is not modelled.
-/
import Mathlib

namespace Factories

/-- A Python attribute value, as far as the registry inspects one.
`boundMethod i r` is a bound method with object identity `i` whose
zero-argument call returns `r`; `function i r` is any other callable
(`inspect.ismethod` is false for it) with identity `i` returning `r`
when called with no arguments. -/
inductive PyVal where
  | str : String → PyVal
  | int : Int → PyVal
  | noneV : PyVal
  | boundMethod : Nat → PyVal → PyVal
  | function : Nat → PyVal → PyVal
deriving DecidableEq, Repr

/-- Is the value an `int`? -/
def PyVal.isInt : PyVal → Bool
  | .int _ => true
  | _ => false

/-- A loaded Python class object: object identity `id`, the ids of the
classes in its method resolution order (its own id included, so that
`issubclass c a ↔ a.id ∈ c.mro` matches Python's reflexive
`issubclass`), and its attribute table (`getattr`). -/
structure PyClass where
  id : Nat
  mro : List Nat
  attrs : String → PyVal

/-- `issubclass(c, a)` — Python's subclass test, reflexive. -/
def issubclass (c a : PyClass) : Bool :=
  decide (a.id ∈ c.mro)

/-- A top-level binding of a module as seen by the `dir()` loop of
`add_path`: either a class object or any other value (skipped by the
`inspect.isclass` check). -/
inductive PyMember where
  | cls : PyClass → PyMember
  | other : PyMember

/-- A module object.  `file` is its `__file__` attribute when present;
builtin modules (e.g. `time`, `sys`) and namespace packages have none,
and accessing `__file__` on them raises `AttributeError`. -/
structure Module where
  id : Nat
  file : Option String
  members : List PyMember

/-- An argument to `register`: `inspect.isclass` distinguishes class
objects from everything else. -/
inductive PyObj where
  | cls : PyClass → PyObj
  | notClass : PyObj

/-- The loading mechanism enums of the `Factory` class. -/
inductive Mechanism where
  | GUESS
  | LOAD_SOURCE
  | IMPORTABLE
deriving DecidableEq, Repr

/-- An exception escaping the embedded code. -/
inductive PyErr where
  | attributeError
  | keyError
deriving DecidableEq, Repr

/-! ### Python `dict` as an insertion-ordered association list -/

/-- `d[k] = v` on a Python dict: updating an existing key keeps its
position, a new key is appended. -/
def dictInsert {α β : Type} [DecidableEq α] (d : List (α × β)) (k : α) (v : β) :
    List (α × β) :=
  if d.any (fun kv => kv.1 = k) then
    d.map (fun kv => if kv.1 = k then (kv.1, v) else kv)
  else
    d ++ [(k, v)]

/-- A dict built from a stream of key/value pairs, as a Python dict
comprehension does: later pairs with an equal key overwrite earlier
ones. -/
def buildDict {α β : Type} [DecidableEq α] (l : List (α × β)) : List (α × β) :=
  l.foldl (fun d kv => dictInsert d kv.1 kv.2) []

/-- `d[k]` lookup, `none` when the key is absent. -/
def lookupDict {α β : Type} [DecidableEq α] (d : List (α × β)) (k : α) :
    Option β :=
  (d.find? (fun kv => kv.1 = k)).map (fun kv => kv.2)

/-- The keys of a dict, in iteration order. -/
def keysOf {α β : Type} (d : List (α × β)) : List α :=
  d.map (fun kv => kv.1)

/-! ### Path string helpers (POSIX, forward slashes)

Implemented over `List Char` by structural recursion (rather than with
the library's string primitives) so that every definition reduces on
concrete inputs. -/

/-- `s.split(sep)`, Python semantics over character lists. -/
def charSplitAux (sep : Char) : List Char → List Char → List (List Char)
  | [], acc => [acc.reverse]
  | c :: rest, acc =>
    if c = sep then acc.reverse :: charSplitAux sep rest []
    else charSplitAux sep rest (c :: acc)

/-- `s.split(sep)` over character lists. -/
def charSplit (sep : Char) (l : List Char) : List (List Char) :=
  charSplitAux sep l []

/-- `sep.join(parts)` over character lists. -/
def charJoin (sep : Char) : List (List Char) → List Char
  | [] => []
  | [x] => x
  | x :: rest => x ++ sep :: charJoin sep rest

/-- Does the string start with the character? -/
def strStarts (s : String) (c : Char) : Bool :=
  match s.toList with
  | [] => false
  | d :: _ => d = c

/-- Does the string end with the character? -/
def strEnds (s : String) (c : Char) : Bool :=
  match s.toList.getLast? with
  | some d => d = c
  | none => false

/-- `os.path.join(a, b)` on POSIX. -/
def join1 (a b : String) : String :=
  if strStarts b '/' then b
  else if a = "" then b
  else if strEnds a '/' then String.mk (a.toList ++ b.toList)
  else String.mk (a.toList ++ '/' :: b.toList)

/-- `os.path.join(*parts)` on POSIX. -/
def joinParts (parts : List String) : String :=
  parts.foldl join1 ""

/-- `s.split('/')` as strings. -/
def slashSplit (s : String) : List String :=
  (charSplit '/' s.toList).map String.mk

/-- `'.'.join(parts)`. -/
def dotJoin (parts : List String) : String :=
  String.mk (charJoin '.' (parts.map String.toList))

/-- `os.path.basename`. -/
def basename (s : String) : String :=
  String.mk ((charSplit '/' s.toList).getLastD s.toList)

/-- `os.path.splitext(s)[0]`: drop the final dot-extension. -/
def stripExt (s : String) : String :=
  let parts := charSplit '.' s.toList
  if parts.length ≤ 1 then s
  else String.mk (charJoin '.' parts.dropLast)

/-- Is `pre` a prefix of `l`? -/
def isPre : List Char → List Char → Bool
  | [], _ => true
  | _ :: _, [] => false
  | a :: as, b :: bs => a = b && isPre as bs

/-- Substring occurrence over character lists. -/
def hasSub (sub : List Char) : List Char → Bool
  | [] => sub.isEmpty
  | c :: rest => isPre sub (c :: rest) || hasSub sub rest

/-- Python's `sub in s` substring test. -/
def strContains (s sub : String) : Bool :=
  hasSub sub.toList s.toList

/-! ### The `_PY_CHECK` filename pattern

The source tests filenames with `re.match` against
`^[^_ 0-9]+?[\w]+?(\.py$|\.pyc$)` and only uses the truthiness of the
result, i.e. whether *some* match exists.  A match decomposes the
filename into a non-empty block of characters which are not underscore,
space or an ASCII digit, followed by a non-empty block of word
characters, followed by a literal `.py` or `.pyc` that reaches the end
of the string.  (`\w` additionally covers non-ASCII word characters
under Python's default Unicode semantics; the ASCII classification used
here agrees with Python on every character these theorems inspect.) -/

/-- The `[^_ 0-9]` character class. -/
def isPyA (c : Char) : Bool :=
  !(c = '_' || c = ' ' || c.isDigit)

/-- The `[\w]` character class (ASCII approximation, see above). -/
def isPyW (c : Char) : Bool :=
  c.isAlphanum || c = '_'

/-- Truthiness of `Factory._PY_CHECK.match(s)`. -/
def pyCheckMatches (s : String) : Bool :=
  let l := s.toList
  (List.range (l.length + 1)).any fun j =>
    (List.range (j + 1)).any fun i =>
      decide (1 ≤ i) && decide (i < j) &&
      (l.take i).all isPyA &&
      ((l.drop i).take (j - i)).all isPyW &&
      (decide (l.drop j = ['.', 'p', 'y']) ||
        decide (l.drop j = ['.', 'p', 'y', 'c']))

/-! ### The host environment -/

/-- The host interpreter and file system, as consulted by the source:

* `isDir p` — `os.path.isdir(p)`;
* `listing p` — the `(root, filename)` pairs produced by walking
  `os.walk(p)` and iterating each `files` list, in enumeration order;
* `importMod n` — the module `__import__(n)` resolves name `n` to, or
  `none` when the import raises; a successful import also caches the
  module, so this doubles as the `sys.modules[n]` view the source reads
  immediately afterwards;
* `pathExists p` — `os.path.exists(p)` (used for `__init__` probing);
* `loadSource f` — the outcome of one
  `SourceFileLoader(unique_name, f).load_module()` attempt: `none` when
  the load raised (the source catches `Exception` there), `some m` for a
  successful load (the `uuid`-derived module name makes the call
  side-effect free for the registry, so a static outcome per file
  models one scan faithfully);
* `norm p` — `os.path.realpath(os.path.normpath(p))`. -/
structure Env where
  isDir : String → Bool
  listing : String → List (String × String)
  importMod : String → Option Module
  pathExists : String → Bool
  loadSource : String → Option Module
  norm : String → String

/-- `is_same_path` from `factory.py`: compare after normalisation. -/
def is_same_path (env : Env) (a b : String) : Bool :=
  decide (env.norm a = env.norm b)

/-! ### The Factory state -/

/-- The mutable state of a `Factory` instance together with its
immutable configuration.  `pathRecord` is `_add_pathed_paths` (a dict
from path string to mechanism), `plugins` is `_plugins`. -/
structure Factory where
  abstract : PyClass
  identifierKey : String
  versionKey : Option String
  plugins : List PyClass
  pathRecord : List (String × Mechanism)
  logErrors : Bool

/-- Truthiness of `self._version` (`None` and the empty string are
falsy). -/
def hasVersioning (f : Factory) : Bool :=
  match f.versionKey with
  | some s => decide (s ≠ "")
  | none => false

/-- The string `getattr(plugin, ...)` is called with for the version
key; only meaningful when `hasVersioning` holds. -/
def versionKeyStr (f : Factory) : String :=
  match f.versionKey with
  | some s => s
  | none => ""

/-- The shared tail of `get_identifier`/`get_version`: call the fetched
attribute exactly when `inspect.ismethod` is true for it. -/
def resolveAttr (v : PyVal) : PyVal :=
  match v with
  | .boundMethod _ r => r
  | v => v

/-- `Factory.get_identifier`. -/
def get_identifier (f : Factory) (plugin : PyClass) : PyVal :=
  resolveAttr (plugin.attrs f.identifierKey)

/-- `Factory.get_version`. -/
def get_version (f : Factory) (plugin : PyClass) : PyVal :=
  resolveAttr (plugin.attrs (versionKeyStr f))

/-- The plugins whose resolved identifier equals the requested one (the
list comprehension shared by `request` and `versions`). -/
def matchingPlugins (f : Factory) (pid : PyVal) : List PyClass :=
  f.plugins.filter (fun p => decide (get_identifier f p = pid))

/-! ### The module loader -/

/-- The `['.py', '.pyc', '.pyd']` probe list of `_module_address`. -/
def initExts : List String := [".py", ".pyc", ".pyd"]

/-- The inner `for ext in [...]` loop of `Factory._module_address`.
Returns the updated `package_parts` accumulator and the package name on
a successful validating import.  Note the source appends `part` to
`package_parts` once per extension whose `__init__` probe is missing,
before attempting the import. -/
def extLoop (env : Env) (directory : String) :
    List String → List String → String → List String × Option String
  | [], pp, _ => (pp, none)
  | ext :: rest, pp, part =>
    let packageTest := join1 directory ("__init__" ++ ext)
    if env.pathExists packageTest then
      extLoop env directory rest pp part
    else
      let pp' := pp ++ [part]
      let packageName := dotJoin pp'.reverse
      let packageName :=
        if strContains packageName ext then stripExt packageName
        else packageName
      match env.importMod packageName with
      | some _ => (pp', some packageName)
      | none => extLoop env directory rest pp' part

/-- The `while len(parts) > 1` loop of `Factory._module_address`,
written with explicit fuel so the recursion is structural.  With
`fuel = parts.length` the fuel never runs out before the loop guard
fails: every iteration shortens `parts` by exactly one, so the guard
`1 < length` fails no later than the fuel. -/
def partsLoopFuel (env : Env) : Nat → List String → List String →
    Option String
  | 0, _, _ => none
  | fuel + 1, parts, pp =>
    if 1 < parts.length then
      let directory := joinParts parts.dropLast
      let part := parts.getLastD ""
      match extLoop env directory initExts pp part with
      | (_, some name) => some name
      | (pp', none) => partsLoopFuel env fuel parts.dropLast (pp' ++ [part])
    else
      none

/-- The `while len(parts) > 1` loop of `Factory._module_address`. -/
def partsLoop (env : Env) (parts : List String) (pp : List String) :
    Option String :=
  partsLoopFuel env parts.length parts pp

/-- `Factory._module_address`.  The lone-name probe imports the bare
file stem; on success the source reads `mod.__file__` *outside* the
surrounding `try` (it sits in the `else:` clause), so a module without
a `__file__` attribute raises an uncaught `AttributeError`. -/
def module_address (env : Env) (filepath : String) :
    Except PyErr (Option String) :=
  let lone := stripExt (basename filepath)
  match env.importMod lone with
  | some mod =>
    match mod.file with
    | none => .error .attributeError
    | some f =>
      if is_same_path env f filepath then .ok (some lone)
      else .ok (partsLoop env (slashSplit filepath) [])
  | none => .ok (partsLoop env (slashSplit filepath) [])

/-- `Factory._mechanism_import`: resolve an address, then read the
module out of `sys.modules` when the address is truthy. -/
def mechanism_import (env : Env) (filepath : String) :
    Except PyErr (Option Module) :=
  match module_address env filepath with
  | .error e => .error e
  | .ok none => .ok none
  | .ok (some name) =>
    if name = "" then .ok none
    else
      match env.importMod name with
      | some m => .ok (some m)
      | none => .error .keyError

/-- The per-file computation of `module_to_inspect` in
`Factory.add_path` (lines 705-730): mechanism policy, the namespace
clash guard (which reads `module_to_inspect.__file__`, again uncaught),
and the fall back to `Factory._mechanism_load` (whose own body catches
every `Exception`, hence `env.loadSource`). -/
def resolve_module (env : Env) (mech : Mechanism) (filepath : String) :
    Except PyErr (Option Module) :=
  let importStep : Except PyErr (Option Module) :=
    if mech = Mechanism.IMPORTABLE ∨ mech = Mechanism.GUESS then
      match mechanism_import env filepath with
      | .error e => .error e
      | .ok none => .ok none
      | .ok (some mod) =>
        match mod.file with
        | none => .error PyErr.attributeError
        | some mf =>
          if is_same_path env mf filepath then .ok (some mod)
          else .ok none
    else .ok none
  match importStep with
  | .error e => .error e
  | .ok (some m) => .ok (some m)
  | .ok none =>
    if mech = Mechanism.LOAD_SOURCE ∨ mech = Mechanism.GUESS then
      .ok (env.loadSource filepath)
    else
      .ok none

/-- The `for item_name in dir(module_to_inspect)` loop: keep the class
objects which are not the abstract itself and subclass it.  (The source
wraps this loop in a `try/except Exception`, so a raise during
inspection is contained; inspection of the modelled module values is
pure.) -/
def inspect_module (abstract : PyClass) (mod : Module) : List PyClass :=
  mod.members.filterMap fun m =>
    match m with
    | .other => none
    | .cls c =>
      if c.id = abstract.id then none
      else if issubclass c abstract then some c
      else none

/-- One iteration of the `for filepath in filepaths` loop of
`add_path`: a file that resolves to no module is logged and skipped,
a resolved module's conforming classes are appended. -/
def process_file (env : Env) (abstract : PyClass) (mech : Mechanism)
    (plugins : List PyClass) (filepath : String) :
    Except PyErr (List PyClass) :=
  match resolve_module env mech filepath with
  | .error e => .error e
  | .ok none => .ok plugins
  | .ok (some mod) => .ok (plugins ++ inspect_module abstract mod)

/-- The whole file loop of `add_path`. -/
def processFiles (env : Env) (abstract : PyClass) (mech : Mechanism) :
    List String → List PyClass → Except PyErr (List PyClass)
  | [], acc => .ok acc
  | fp :: rest, acc =>
    match process_file env abstract mech acc fp with
    | .error e => .error e
    | .ok acc' => processFiles env abstract mech rest acc'

/-- The candidate-file collation pass of `add_path`: every walked
filename matching `_PY_CHECK`, joined onto its root. -/
def candidateFiles (env : Env) (path : String) : List String :=
  (env.listing path).filterMap fun rf =>
    if pyCheckMatches rf.2 then some (join1 rf.1 rf.2) else none

/-- `Factory.add_path`.  Returns the updated factory and the count of
plugins added by this call, or the uncaught exception.  (When an
exception escapes, the Python instance keeps the mutations made before
the raise; the embedding only models the escaped exception itself, and
no theorem here reads registry state past an escaped exception.) -/
def add_path (env : Env) (f : Factory) (path : String) (mech : Mechanism) :
    Except PyErr (Factory × Nat) :=
  if path = "" then .ok (f, 0)
  else if env.isDir path = false then .ok (f, 0)
  else
    let f1 : Factory := { f with pathRecord := dictInsert f.pathRecord path mech }
    let current := f1.plugins.length
    match processFiles env f1.abstract mech (candidateFiles env path) f1.plugins with
    | .error e => .error e
    | .ok newPlugins =>
      .ok ({ f1 with plugins := newPlugins }, newPlugins.length - current)

/-- `Factory.register`. -/
def register (f : Factory) (o : PyObj) : Factory × Bool :=
  match o with
  | .notClass => (f, false)
  | .cls c =>
    if issubclass c f.abstract = false then (f, false)
    else if f.plugins.any (fun p => p.id = c.id) then (f, true)
    else ({ f with plugins := f.plugins ++ [c] }, true)

/-- `Factory.clear`. -/
def clear (f : Factory) : Factory :=
  { f with plugins := [], pathRecord := [] }

/-- Re-`add_path` a snapshot of path records in order (the shared tail
of `reload` and `remove_path`). -/
def scanPaths (env : Env) : List (String × Mechanism) → Factory →
    Except PyErr Factory
  | [], f => .ok f
  | (p, m) :: rest, f =>
    match add_path env f p m with
    | .error e => .error e
    | .ok (f', _) => scanPaths env rest f'

/-- `Factory.reload`. -/
def reload (env : Env) (f : Factory) : Except PyErr Factory :=
  scanPaths env f.pathRecord (clear f)

/-- `Factory.remove_path`: snapshot, clear, re-add every path not
`is_same_path`-equal to the argument. -/
def remove_path (env : Env) (f : Factory) (path : String) :
    Except PyErr Factory :=
  scanPaths env
    (f.pathRecord.filter (fun pm => is_same_path env pm.1 path = false))
    { f with plugins := [], pathRecord := [] }

/-- `max(...)` over version values: defined on `int`s (the collaborator
contract requires numeric, totally ordered versions; Python raises on
anything else). -/
def pyMax (a b : PyVal) : PyVal :=
  match a, b with
  | .int i, .int j => if i < j then .int j else .int i
  | _, _ => b

/-- `max` of a non-empty key list (junk on an empty one, which the
source cannot reach: the dict is built from a non-empty match list). -/
def maxKey (l : List PyVal) : PyVal :=
  match l with
  | [] => .noneV
  | k :: ks => ks.foldl pyMax k

/-- `sorted(...)` over version values, with the `int` ordering. -/
def pyLe (a b : PyVal) : Bool :=
  match a, b with
  | .int i, .int j => decide (i ≤ j)
  | _, _ => true

/-- `Factory.request`.  `matching[0]` of the source is `head?` here (the
emptiness test has already been passed); `max(versions)` iterates the
dict's keys. -/
def request (f : Factory) (pid : PyVal) (version : Option PyVal) :
    Option PyClass :=
  let matching := matchingPlugins f pid
  if matching.isEmpty then none
  else if hasVersioning f = false then matching.head?
  else
    let vdict := buildDict (matching.map fun p => (get_version f p, p))
    match version with
    | none => lookupDict vdict (maxKey (keysOf vdict))
    | some v => lookupDict vdict v

/-- `Factory.versions`. -/
def versions (f : Factory) (identifier : PyVal) : List PyVal :=
  if hasVersioning f = false then []
  else
    ((matchingPlugins f identifier).map (get_version f)).mergeSort pyLe

/-! ### Construction -/

/-- The shape of the `paths` constructor argument: `None`, a single
non-collection value (e.g. a string), or a `list`/`tuple`/`set` of
paths. -/
inductive PathsArg where
  | noneArg : PathsArg
  | single : String → PathsArg
  | list : List String → PathsArg

/-- Fold `add_path` over a list of paths with one mechanism. -/
def addPaths (env : Env) : List String → Mechanism → Factory →
    Except PyErr Factory
  | [], _, f => .ok f
  | p :: rest, m, f =>
    match add_path env f p m with
    | .error e => .error e
    | .ok (f', _) => addPaths env rest m f'

/-- The registry state assembled by `Factory.__init__` before any path
is scanned.  `plugin_identifier or '__name__'` treats the empty string
as unset. -/
def initBase (abstract : PyClass)
    (pluginIdentifier versioningIdentifier : Option String)
    (logErrors : Bool) : Factory :=
  { abstract := abstract
    identifierKey :=
      match pluginIdentifier with
      | some s => if s = "" then "__name__" else s
      | none => "__name__"
    versionKey := versioningIdentifier
    plugins := []
    pathRecord := []
    logErrors := logErrors }

/-- `Factory.__init__`.  `paths` is scanned only when it is a non-empty
`list`/`tuple`/`set`; `envvar` is consulted in `os.environ` and split
on `os.pathsep`. -/
def factoryInit (env : Env) (abstract : PyClass) (paths : PathsArg)
    (pluginIdentifier : Option String) (versioningIdentifier : Option String)
    (envvar : Option String) (environ : String → Option String)
    (mech : Mechanism) (logErrors : Bool) : Except PyErr Factory :=
  let f0 : Factory :=
    initBase abstract pluginIdentifier versioningIdentifier logErrors
  match
    (match paths with
      | .list l => if l.isEmpty then .ok f0 else addPaths env l mech f0
      | _ => .ok f0 : Except PyErr Factory)
  with
  | .error e => .error e
  | .ok f1 =>
    match envvar with
    | none => .ok f1
    | some e =>
      if e = "" then .ok f1
      else
        match environ e with
        | none => .ok f1
        | some value =>
          addPaths env ((charSplit ':' value.toList).map String.mk) mech f1

/-! ### Helper lemmas about the dict model -/

theorem dictInsert_cons_ne {α β : Type} [DecidableEq α] (kv : α × β)
    (d : List (α × β)) (k : α) (v : β) (h : kv.1 ≠ k) :
    dictInsert (kv :: d) k v = kv :: dictInsert d k v := by
  unfold dictInsert
  rw [List.any_cons, decide_eq_false h, Bool.false_or]
  by_cases hp : d.any (fun kv => decide (kv.1 = k)) = true
  · rw [if_pos hp, if_pos hp, List.map_cons, if_neg h]
  · rw [if_neg hp, if_neg hp, List.cons_append]

theorem lookupDict_cons {α β : Type} [DecidableEq α] (kv : α × β)
    (d : List (α × β)) (k : α) :
    lookupDict (kv :: d) k =
      if kv.1 = k then some kv.2 else lookupDict d k := by
  unfold lookupDict
  by_cases hk : kv.1 = k
  · rw [List.find?_cons_of_pos _ (by simpa using hk), if_pos hk]
    rfl
  · rw [List.find?_cons_of_neg _ (by simpa using hk), if_neg hk]

theorem lookupDict_map_replace {α β : Type} [DecidableEq α]
    (d : List (α × β)) (k k' : α) (v : β) (h : k' ≠ k) :
    lookupDict (d.map (fun kv => if kv.1 = k then (kv.1, v) else kv)) k' =
      lookupDict d k' := by
  induction d with
  | nil => rfl
  | cons kv rest ih =>
    rw [List.map_cons, lookupDict_cons, lookupDict_cons]
    by_cases hk : kv.1 = k
    · have hne : ((if kv.1 = k then (kv.1, v) else kv) : α × β).1 ≠ k' := by
        rw [if_pos hk]
        exact fun hc => h (by rw [← hc, hk])
      have hne2 : kv.1 ≠ k' := fun hc => h (by rw [← hc, hk])
      rw [if_neg hne, if_neg hne2]
      exact ih
    · rw [if_neg hk]
      by_cases hk' : kv.1 = k'
      · rw [if_pos hk', if_pos hk']
      · rw [if_neg hk', if_neg hk']
        exact ih

theorem lookupDict_dictInsert {α β : Type} [DecidableEq α]
    (d : List (α × β)) (k k' : α) (v : β) :
    lookupDict (dictInsert d k v) k' =
      if k' = k then some v else lookupDict d k' := by
  induction d with
  | nil =>
    unfold dictInsert
    rw [List.any_nil, if_neg Bool.false_ne_true, List.nil_append,
      lookupDict_cons]
    by_cases h : k = k'
    · rw [if_pos h, if_pos h.symm]
    · rw [if_neg h, if_neg (fun hc => h hc.symm)]
  | cons kv rest ih =>
    by_cases hk : kv.1 = k
    · unfold dictInsert
      have hp : ((kv :: rest).any (fun kv => decide (kv.1 = k))) = true := by
        simp [List.any_cons, hk]
      rw [if_pos hp, List.map_cons, if_pos hk, lookupDict_cons]
      by_cases hk' : k' = k
      · rw [if_pos (show ((kv.1, v) : α × β).1 = k' by rw [hk, hk']),
          if_pos hk']
      · rw [if_neg (show ¬ ((kv.1, v) : α × β).1 = k' from
          fun hc => hk' (by rw [← hc, hk])), if_neg hk']
        rw [lookupDict_map_replace rest k k' v hk', lookupDict_cons,
          if_neg (fun hc : kv.1 = k' => hk' (by rw [← hc, hk]))]
    · rw [dictInsert_cons_ne kv rest k v hk, lookupDict_cons, lookupDict_cons]
      by_cases hk' : kv.1 = k'
      · have : ¬ (k' = k) := fun hc => hk (by rw [hk', hc])
        rw [if_pos hk', if_neg this, if_pos hk']
      · rw [if_neg hk', if_neg hk']
        exact ih

theorem keysOf_dictInsert_mem {α β : Type} [DecidableEq α]
    (d : List (α × β)) (k a : α) (v : β) :
    a ∈ keysOf (dictInsert d k v) ↔ a ∈ keysOf d ∨ a = k := by
  unfold dictInsert keysOf
  split
  · next hp =>
    have hmap : (d.map (fun kv => if kv.1 = k then (kv.1, v) else kv)).map
        (fun kv => kv.1) = d.map (fun kv => kv.1) := by
      rw [List.map_map]
      apply List.map_congr_left
      intro kv _
      by_cases h : kv.1 = k <;> simp [h]
    rw [hmap]
    constructor
    · exact Or.inl
    · rintro (h | rfl)
      · exact h
      · rcases List.any_eq_true.mp hp with ⟨kv, hkv, hdec⟩
        have := of_decide_eq_true hdec
        exact this ▸ List.mem_map.mpr ⟨kv, hkv, rfl⟩
  · simp

theorem mem_keysOf_buildDict_aux {α β : Type} [DecidableEq α]
    (l : List (α × β)) (acc : List (α × β)) (a : α) :
    a ∈ keysOf (l.foldl (fun d kv => dictInsert d kv.1 kv.2) acc) ↔
      a ∈ keysOf acc ∨ a ∈ keysOf l := by
  induction l generalizing acc with
  | nil => simp [keysOf]
  | cons kv rest ih =>
    simp only [List.foldl_cons]
    rw [ih]
    rw [keysOf_dictInsert_mem]
    unfold keysOf
    simp only [List.map_cons, List.mem_cons]
    tauto

theorem mem_keysOf_buildDict {α β : Type} [DecidableEq α]
    (l : List (α × β)) (a : α) :
    a ∈ keysOf (buildDict l) ↔ a ∈ keysOf l := by
  unfold buildDict
  rw [mem_keysOf_buildDict_aux]
  simp [keysOf]

theorem getLast?_cons_or {α : Type} (a : α) (l : List α) :
    (a :: l).getLast? = l.getLast?.or (some a) := by
  cases l with
  | nil => rfl
  | cons b t => rw [List.getLast?_cons_cons]; cases h : (b :: t).getLast? with
    | some x => rfl
    | none => exact absurd (List.getLast?_eq_none_iff.mp h) (by simp)

theorem lookupDict_foldl {α β : Type} [DecidableEq α]
    (l : List (α × β)) (acc : List (α × β)) (k : α) :
    lookupDict (l.foldl (fun d kv => dictInsert d kv.1 kv.2) acc) k =
      (((l.filter (fun kv => decide (kv.1 = k))).map (fun kv => kv.2)).getLast?).or
        (lookupDict acc k) := by
  induction l generalizing acc with
  | nil => simp
  | cons kv rest ih =>
    simp only [List.foldl_cons]
    rw [ih]
    by_cases hk : kv.1 = k
    · rw [List.filter_cons_of_pos (by simp [hk]), List.map_cons,
        getLast?_cons_or, Option.or_assoc]
      congr 1
      rw [lookupDict_dictInsert]
      rw [if_pos hk.symm]
      cases h : ((rest.filter (fun kv => decide (kv.1 = k))).map
          (fun kv => kv.2)).getLast? <;> rfl
    · rw [List.filter_cons_of_neg (by simp [hk])]
      congr 1
      rw [lookupDict_dictInsert, if_neg (fun hc => hk hc.symm)]

theorem lookupDict_buildDict {α β : Type} [DecidableEq α]
    (l : List (α × β)) (k : α) :
    lookupDict (buildDict l) k =
      ((l.filter (fun kv => decide (kv.1 = k))).map (fun kv => kv.2)).getLast? := by
  unfold buildDict
  rw [lookupDict_foldl]
  have : lookupDict ([] : List (α × β)) k = none := rfl
  rw [this, Option.or_none]

/-! ### Helper lemmas about `maxKey` on integer values -/

theorem maxKey_int_spec (l : List PyVal) (hne : l ≠ [])
    (hint : ∀ v ∈ l, v.isInt = true) :
    ∃ m : Int, maxKey l = .int m ∧ .int m ∈ l ∧
      ∀ z : Int, .int z ∈ l → z ≤ m := by
  match l, hne with
  | k :: ks, _ =>
    have hk : k.isInt = true := hint k (by simp)
    obtain ⟨a, rfl⟩ : ∃ a : Int, k = .int a := by
      cases k <;> simp_all [PyVal.isInt]
    have haux : ∀ (ks : List PyVal) (a : Int),
        (∀ v ∈ ks, v.isInt = true) →
        ∃ m : Int, ks.foldl pyMax (.int a) = .int m ∧
          (m = a ∨ PyVal.int m ∈ ks) ∧ a ≤ m ∧
          ∀ z : Int, .int z ∈ ks → z ≤ m := by
      intro ks
      induction ks with
      | nil => intro a _; exact ⟨a, rfl, Or.inl rfl, le_refl a, by simp⟩
      | cons v t ih =>
        intro a hints
        obtain ⟨b, rfl⟩ : ∃ b : Int, v = .int b := by
          have := hints v (by simp)
          cases v <;> simp_all [PyVal.isInt]
        have hstep : pyMax (.int a) (.int b) = .int (if a < b then b else a) := by
          by_cases hab : a < b <;> simp [pyMax, hab]
        obtain ⟨m, hm, hmem, hle, hall⟩ :=
          ih (if a < b then b else a) (fun w hw => hints w (by simp [hw]))
        refine ⟨m, ?_, ?_, ?_, ?_⟩
        · simpa [hstep] using hm
        · rcases hmem with h | h
          · by_cases hab : a < b
            · simp only [if_pos hab] at h
              exact Or.inr (by simp [h])
            · simp only [if_neg hab] at h
              exact Or.inl h
          · exact Or.inr (by simp [h])
        · refine le_trans ?_ hle
          split <;> omega
        · intro z hz
          rcases List.mem_cons.mp hz with h | h
          · have hzb : z = b := by injection h
            refine le_trans ?_ hle
            split <;> omega
          · exact hall z h
    obtain ⟨m, hm, hmem, hle, hall⟩ := haux ks a (fun v hv => hint v (by simp [hv]))
    refine ⟨m, hm, ?_, ?_⟩
    · rcases hmem with h | h
      · simp [h]
      · simp [h]
    · intro z hz
      rcases List.mem_cons.mp hz with h | h
      · have : z = a := by injection h
        omega
      · exact hall z h

theorem maxKey_eq_of_mem_iff (l₁ l₂ : List PyVal)
    (h : ∀ v, v ∈ l₁ ↔ v ∈ l₂) (hne : l₂ ≠ [])
    (hint : ∀ v ∈ l₂, v.isInt = true) :
    maxKey l₁ = maxKey l₂ := by
  have hne₁ : l₁ ≠ [] := by
    match l₂, hne with
    | w :: ws, _ =>
      intro hc
      have : w ∈ l₁ := (h w).mpr (by simp)
      simp [hc] at this
  obtain ⟨m₂, hm₂, hmem₂, hall₂⟩ := maxKey_int_spec l₂ hne hint
  obtain ⟨m₁, hm₁, hmem₁, hall₁⟩ :=
    maxKey_int_spec l₁ hne₁ (fun v hv => hint v ((h v).mp hv))
  have h12 : m₁ ≤ m₂ := hall₂ m₁ ((h _).mp hmem₁)
  have h21 : m₂ ≤ m₁ := hall₁ m₂ ((h _).mpr hmem₂)
  rw [hm₁, hm₂]
  congr 1
  omega

/-! ### Characterizing `request` -/

/-- Looking up a version `v` in the dict `{get_version(p): p for p in l}`
finds the *last* element of `l` carrying that version (Python dict
comprehensions are last-write-wins). -/
theorem lookup_versionDict (f : Factory) (l : List PyClass) (v : PyVal) :
    lookupDict (buildDict (l.map fun p => (get_version f p, p))) v =
      (l.filter (fun p => decide (get_version f p = v))).getLast? := by
  rw [lookupDict_buildDict, List.filter_map, List.map_map]
  have hcomp :
      ((fun kv : PyVal × PyClass => kv.2) ∘ fun p => (get_version f p, p)) =
        (fun p : PyClass => p) := rfl
  have hpred :
      ((fun kv : PyVal × PyClass => decide (kv.1 = v)) ∘
        fun p => (get_version f p, p)) =
        (fun p => decide (get_version f p = v)) := rfl
  rw [hcomp, hpred, List.map_id']

/-- The keys of the version dict are exactly the version values of the
match list (as sets). -/
theorem mem_keys_versionDict (f : Factory) (l : List PyClass) (w : PyVal) :
    w ∈ keysOf (buildDict (l.map fun p => (get_version f p, p))) ↔
      w ∈ l.map (get_version f) := by
  rw [mem_keysOf_buildDict]
  unfold keysOf
  rw [List.map_map]
  have hcomp :
      ((fun kv : PyVal × PyClass => kv.1) ∘ fun p => (get_version f p, p)) =
        get_version f := rfl
  rw [hcomp]

theorem request_some_version (f : Factory) (pid v : PyVal)
    (hv : hasVersioning f = true)
    (hne : (matchingPlugins f pid).isEmpty = false) :
    request f pid (some v) =
      ((matchingPlugins f pid).filter
        (fun p => decide (get_version f p = v))).getLast? := by
  unfold request
  simp only [hne, hv, Bool.true_eq_false, if_false, Bool.false_eq_true]
  exact lookup_versionDict f (matchingPlugins f pid) v

theorem request_none_version (f : Factory) (pid : PyVal)
    (hv : hasVersioning f = true)
    (hne : (matchingPlugins f pid).isEmpty = false)
    (hint : (matchingPlugins f pid).all
      (fun p => (get_version f p).isInt) = true) :
    ∃ m : Int,
      request f pid none =
        ((matchingPlugins f pid).filter
          (fun p => decide (get_version f p = PyVal.int m))).getLast? ∧
      PyVal.int m ∈ (matchingPlugins f pid).map (get_version f) ∧
      ∀ z : Int, PyVal.int z ∈ (matchingPlugins f pid).map (get_version f) →
        z ≤ m := by
  have hne' : matchingPlugins f pid ≠ [] := List.isEmpty_eq_false.mp hne
  have hmapne : (matchingPlugins f pid).map (get_version f) ≠ [] := by
    simpa [List.map_eq_nil_iff] using hne'
  have hmint : ∀ w ∈ (matchingPlugins f pid).map (get_version f),
      w.isInt = true := by
    intro w hw
    rcases List.mem_map.mp hw with ⟨p, hp, rfl⟩
    exact List.all_eq_true.mp hint p hp
  have hkeys : maxKey (keysOf (buildDict ((matchingPlugins f pid).map
      fun p => (get_version f p, p)))) =
      maxKey ((matchingPlugins f pid).map (get_version f)) :=
    maxKey_eq_of_mem_iff _ _
      (fun w => mem_keys_versionDict f (matchingPlugins f pid) w)
      hmapne hmint
  obtain ⟨m, hm, hmem, hall⟩ :=
    maxKey_int_spec ((matchingPlugins f pid).map (get_version f)) hmapne hmint
  refine ⟨m, ?_, hmem, hall⟩
  unfold request
  simp only [hne, hv, Bool.true_eq_false, if_false, Bool.false_eq_true]
  rw [hkeys, hm]
  exact lookup_versionDict f (matchingPlugins f pid) (.int m)

/-! ### Structural lemmas about `add_path` and the rescans -/

theorem inspect_module_ids (abstract : PyClass) (mod : Module) :
    ∀ c ∈ inspect_module abstract mod, c.id ≠ abstract.id := by
  intro c hc
  unfold inspect_module at hc
  rcases List.mem_filterMap.mp hc with ⟨m, _, hm⟩
  cases m with
  | other => simp at hm
  | cls c' =>
    by_cases h1 : c'.id = abstract.id
    · simp [h1] at hm
    · by_cases h2 : issubclass c' abstract = true
      · simp only [h1, if_false, h2, if_true, Option.some.injEq] at hm
        rw [← hm]
        exact h1
      · simp [h1, h2] at hm

theorem process_file_ok (env : Env) (abstract : PyClass) (mech : Mechanism)
    (acc : List PyClass) (fp : String) (acc' : List PyClass)
    (h : process_file env abstract mech acc fp = .ok acc') :
    ∃ extra, acc' = acc ++ extra ∧ ∀ e ∈ extra, e.id ≠ abstract.id := by
  unfold process_file at h
  cases hr : resolve_module env mech fp with
  | error e => rw [hr] at h; cases h
  | ok m =>
    rw [hr] at h
    cases m with
    | none =>
      refine ⟨[], ?_, by simp⟩
      cases h
      simp
    | some mod =>
      refine ⟨inspect_module abstract mod, ?_, inspect_module_ids abstract mod⟩
      cases h
      rfl

theorem processFiles_ok (env : Env) (abstract : PyClass) (mech : Mechanism)
    (files : List String) :
    ∀ (acc acc' : List PyClass),
      processFiles env abstract mech files acc = .ok acc' →
      ∃ extra, acc' = acc ++ extra ∧ ∀ e ∈ extra, e.id ≠ abstract.id := by
  induction files with
  | nil =>
    intro acc acc' h
    unfold processFiles at h
    cases h
    exact ⟨[], by simp, by simp⟩
  | cons fp rest ih =>
    intro acc acc' h
    unfold processFiles at h
    cases hp : process_file env abstract mech acc fp with
    | error e => rw [hp] at h; cases h
    | ok acc1 =>
      rw [hp] at h
      obtain ⟨e1, he1, hid1⟩ := process_file_ok env abstract mech acc fp acc1 hp
      obtain ⟨e2, he2, hid2⟩ := ih acc1 acc' h
      refine ⟨e1 ++ e2, ?_, ?_⟩
      · rw [he2, he1, List.append_assoc]
      · intro e he
        rcases List.mem_append.mp he with h' | h'
        · exact hid1 e h'
        · exact hid2 e h'

/-- What a successful `add_path` call did: configuration unchanged,
plugins extended by freshly inspected classes (none of them the
abstract), the returned count is the number of new entries, and the
path record either gained the argument (valid directory) or is
untouched (empty path or not a directory, in which case nothing was
added). -/
theorem add_path_ok (env : Env) (f : Factory) (path : String)
    (mech : Mechanism) (f' : Factory) (n : Nat)
    (h : add_path env f path mech = .ok (f', n)) :
    f'.abstract = f.abstract ∧ f'.identifierKey = f.identifierKey ∧
    f'.versionKey = f.versionKey ∧ f'.logErrors = f.logErrors ∧
    (∃ extra, f'.plugins = f.plugins ++ extra ∧
      (∀ e ∈ extra, e.id ≠ f.abstract.id) ∧ n = extra.length) ∧
    ((f'.pathRecord = f.pathRecord ∧ f'.plugins = f.plugins ∧ n = 0) ∨
      f'.pathRecord = dictInsert f.pathRecord path mech) := by
  unfold add_path at h
  by_cases h1 : path = ""
  · rw [if_pos h1] at h
    obtain ⟨rfl, rfl⟩ : f = f' ∧ 0 = n := by
      cases h; exact ⟨rfl, rfl⟩
    exact ⟨rfl, rfl, rfl, rfl, ⟨[], by simp, by simp, rfl⟩,
      Or.inl ⟨rfl, rfl, rfl⟩⟩
  · rw [if_neg h1] at h
    by_cases h2 : env.isDir path = false
    · rw [if_pos h2] at h
      obtain ⟨rfl, rfl⟩ : f = f' ∧ 0 = n := by
        cases h; exact ⟨rfl, rfl⟩
      exact ⟨rfl, rfl, rfl, rfl, ⟨[], by simp, by simp, rfl⟩,
        Or.inl ⟨rfl, rfl, rfl⟩⟩
    · rw [if_neg h2] at h
      dsimp only at h
      cases hp : processFiles env f.abstract mech (candidateFiles env path)
          f.plugins with
      | error e =>
        rw [hp] at h
        cases h
      | ok newPlugins =>
        rw [hp] at h
        dsimp only at h
        obtain ⟨extra, hex, hid⟩ :=
          processFiles_ok env f.abstract mech (candidateFiles env path)
            f.plugins newPlugins hp
        cases h
        refine ⟨rfl, rfl, rfl, rfl, ⟨extra, hex, hid, ?_⟩, Or.inr rfl⟩
        rw [hex, List.length_append]
        omega

/-- `(p, m)` survives an insert that writes value `m`. -/
theorem pair_mem_dictInsert {α β : Type} [DecidableEq α]
    (d : List (α × β)) (p q : α) (m : β)
    (h : (p, m) ∈ d ∨ p = q) :
    (p, m) ∈ dictInsert d q m := by
  unfold dictInsert
  by_cases hq : d.any (fun kv => kv.1 = q) = true
  · rw [if_pos hq]
    rcases h with hmem | rfl
    · rcases List.mem_map.mpr ⟨(p, m), hmem, rfl⟩ with h'
      by_cases hpq : p = q
      · exact List.mem_map.mpr ⟨(p, m), hmem, by simp [hpq]⟩
      · exact List.mem_map.mpr ⟨(p, m), hmem, by simp [hpq]⟩
    · rcases List.any_eq_true.mp hq with ⟨kv, hkv, hdec⟩
      have hkvq : kv.1 = p := of_decide_eq_true hdec
      exact List.mem_map.mpr ⟨kv, hkv, by simp [hkvq]⟩
  · rw [if_neg hq]
    rcases h with hmem | rfl
    · exact List.mem_append.mpr (Or.inl hmem)
    · exact List.mem_append.mpr (Or.inr (by simp))

/-- Keys after an insert: old keys, or the inserted key. -/
theorem mem_keysOf_dictInsert {α β : Type} [DecidableEq α]
    (d : List (α × β)) (k a : α) (v : β)
    (h : a ∈ keysOf (dictInsert d k v)) :
    a ∈ keysOf d ∨ a = k :=
  (keysOf_dictInsert_mem d k a v).mp h

theorem add_path_keys (env : Env) (f : Factory) (path : String)
    (mech : Mechanism) (f' : Factory) (n : Nat)
    (h : add_path env f path mech = .ok (f', n)) :
    ∀ q ∈ keysOf f'.pathRecord, q ∈ keysOf f.pathRecord ∨ q = path := by
  intro q hq
  rcases (add_path_ok env f path mech f' n h).2.2.2.2.2 with ⟨hrec, _, _⟩ | hrec
  · exact Or.inl (hrec ▸ hq)
  · exact mem_keysOf_dictInsert f.pathRecord path q mech (hrec ▸ hq)

/-- A `(path, mech)` record survives a successful `add_path` using the
same mechanism for every insertion. -/
theorem add_path_record_preserved (env : Env) (f : Factory) (path : String)
    (mech : Mechanism) (f' : Factory) (n : Nat) (p : String)
    (h : add_path env f path mech = .ok (f', n))
    (hmem : (p, mech) ∈ f.pathRecord) :
    (p, mech) ∈ f'.pathRecord := by
  rcases (add_path_ok env f path mech f' n h).2.2.2.2.2 with ⟨hrec, _, _⟩ | hrec
  · exact hrec ▸ hmem
  · exact hrec ▸ pair_mem_dictInsert f.pathRecord p path mech (Or.inl hmem)

/-- A valid directory is recorded by a successful `add_path` call. -/
theorem add_path_records (env : Env) (f : Factory) (path : String)
    (mech : Mechanism) (f' : Factory) (n : Nat)
    (h : add_path env f path mech = .ok (f', n))
    (hne : path ≠ "") (hdir : env.isDir path = true) :
    (path, mech) ∈ f'.pathRecord := by
  unfold add_path at h
  rw [if_neg hne, if_neg (by simp [hdir])] at h
  dsimp only at h
  cases hp : processFiles env f.abstract mech (candidateFiles env path)
      f.plugins with
  | error e =>
    rw [hp] at h
    cases h
  | ok newPlugins =>
    rw [hp] at h
    dsimp only at h
    have hf' : f'.pathRecord = dictInsert f.pathRecord path mech := by
      cases h; rfl
    rw [hf']
    exact pair_mem_dictInsert f.pathRecord path path mech (Or.inr rfl)

theorem scanPaths_keys (env : Env) (entries : List (String × Mechanism)) :
    ∀ (f f' : Factory), scanPaths env entries f = .ok f' →
      ∀ q ∈ keysOf f'.pathRecord,
        q ∈ keysOf f.pathRecord ∨ q ∈ entries.map (fun pm => pm.1) := by
  induction entries with
  | nil =>
    intro f f' h q hq
    unfold scanPaths at h
    cases h
    exact Or.inl hq
  | cons pm rest ih =>
    intro f f' h q hq
    unfold scanPaths at h
    cases ha : add_path env f pm.1 pm.2 with
    | error e => rw [ha] at h; cases h
    | ok fn =>
      rw [ha] at h
      rcases ih fn.1 f' h q hq with h' | h'
      · rcases add_path_keys env f pm.1 pm.2 fn.1 fn.2 ha q h' with h'' | h''
        · exact Or.inl h''
        · exact Or.inr (by simp [h''])
      · exact Or.inr (by simp [h'])

/-! ### Concrete scenarios -/

/-- A minimal abstract contract class (object id 1). -/
def absC : PyClass := { id := 1, mro := [1], attrs := fun _ => .noneV }

/-- A freshly constructed registry over `absC` with default options and
no scanning performed. -/
def baseFactory : Factory :=
  { abstract := absC, identifierKey := "__name__", versionKey := none,
    plugins := [], pathRecord := [], logErrors := true }

/-- Extract the factory from a successful scan result. -/
def okFactory (r : Except PyErr (Factory × Nat)) (dflt : Factory) : Factory :=
  match r with
  | .ok fn => fn.1
  | .error _ => dflt

/-- Extract the factory from a successful rescan/construction result. -/
def okInit (r : Except PyErr Factory) (dflt : Factory) : Factory :=
  match r with
  | .ok f => f
  | .error _ => dflt

/-- The builtin `time` module: importable, but with no `__file__`
attribute (as in CPython). -/
def timeModule : Module := { id := 100, file := none, members := [] }

/-- A host with a scannable directory `/plug` containing a candidate
file `time.py`, whose bare stem imports to the builtin `time` module. -/
def envC1 : Env :=
  { isDir := fun p => p == "/plug"
    listing := fun p => if p == "/plug" then [("/plug", "time.py")] else []
    importMod := fun n => if n == "time" then some timeModule else none
    pathExists := fun _ => false
    loadSource := fun _ => none
    norm := fun s => s }

/-- **C1.** For every call to `add_path`, `reload`, or `remove_path`, no
exception raised while loading or inspecting a single candidate plugin
file propagates to the caller.  This fails on the code: scanning a
directory containing a file `time.py` makes `_module_address` execute
`__import__('time')` successfully and then read `mod.__file__` in the
`else:` clause of its `try` — outside the exception handler — which
raises an uncaught `AttributeError` (builtin modules have no
`__file__`) that propagates out of `add_path`.  The theorem evaluates
the embedded `add_path` at that failing input. -/
theorem c1_add_path_uncaught_attribute_error :
    add_path envC1 baseFactory "/plug" Mechanism.GUESS =
      .error PyErr.attributeError := rfl

/-- A concrete plugin class (object id 2) subclassing `absC`. -/
def c2_class : PyClass :=
  { id := 2, mro := [2, 1],
    attrs := fun s => if s = "__name__" then .str "C" else .noneV }

/-- The module backing `/p2/mod.py`, cached in `sys.modules` under the
name `mod`, exposing `c2_class`. -/
def c2_module : Module :=
  { id := 50, file := some "/p2/mod.py", members := [.cls c2_class] }

/-- A host where `/p2/mod.py` resolves by address to `c2_module` (so
rescans under `IMPORTABLE` return the *same* class objects). -/
def envC2 : Env :=
  { isDir := fun p => p == "/p2"
    listing := fun p => if p == "/p2" then [("/p2", "mod.py")] else []
    importMod := fun n => if n == "mod" then some c2_module else none
    pathExists := fun _ => false
    loadSource := fun _ => none
    norm := fun s => s }

/-- `register(abstract)` — accepted, since Python's `issubclass` is
reflexive and `register` has no identity guard against the abstract. -/
def c2_state1 : Factory := (register baseFactory (.cls absC)).1

/-- … then scan `/p2` once … -/
def c2_state2 : Factory :=
  okFactory (add_path envC2 c2_state1 "/p2" Mechanism.IMPORTABLE) baseFactory

/-- … and scan the same path a second time (the spec explicitly allows
re-registering a path: "re-registering the same path later will rescan,
not skip"). -/
def c2_state3 : Factory :=
  okFactory (add_path envC2 c2_state2 "/p2" Mechanism.IMPORTABLE) baseFactory

/-- **C2, counterexample.**  The claimed invariant — the Plugin Entry
sequence never contains the abstract contract type itself nor two
occurrences of the identical loaded type object — is violated by a
reachable operation sequence: `register(abstract)` stores the abstract
itself (`issubclass` is reflexive and `register` does not compare
against the abstract), and scanning the same path twice under
`IMPORTABLE` appends the identical class object twice (`add_path` has
no membership guard).  The final plugin id sequence is `[1, 2, 2]` with
abstract id `1`. -/
theorem c2_counterexample :
    c2_state3.plugins.map (fun p => p.id) = [1, 2, 2] ∧
    c2_state3.abstract.id = 1 ∧
    ¬ (c2_state3.plugins.map (fun p => p.id)).Nodup := by
  refine ⟨by decide, rfl, by decide⟩

/-- **C2, amended.**  What does hold: (1) `add_path` never appends the
abstract contract type itself, so every plugin of the result is either
inherited from the prior state or distinct from the abstract; and
(2) `register` never introduces a duplicate (by identity): it preserves
distinctness of the stored class objects.  Duplicates can still arise
from rescanning, and `register(abstract)` can store the abstract, as the
counterexample shows. -/
theorem c2_amended :
    (∀ (env : Env) (f : Factory) (path : String) (mech : Mechanism)
        (f' : Factory) (n : Nat),
      add_path env f path mech = .ok (f', n) →
      ∀ i ∈ f'.plugins.map (fun p => p.id),
        i ∈ f.plugins.map (fun p => p.id) ∨ i ≠ f.abstract.id) ∧
    (∀ (f : Factory) (o : PyObj),
      (f.plugins.map (fun p => p.id)).Nodup →
      (((register f o).1).plugins.map (fun p => p.id)).Nodup) := by
  constructor
  · intro env f path mech f' n h i hi
    obtain ⟨extra, hex, hid, -⟩ := (add_path_ok env f path mech f' n h).2.2.2.2.1
    rw [hex, List.map_append] at hi
    rcases List.mem_append.mp hi with h' | h'
    · exact Or.inl h'
    · rcases List.mem_map.mp h' with ⟨e, he, rfl⟩
      exact Or.inr (hid e he)
  · intro f o hnd
    cases o with
    | notClass => exact hnd
    | cls c =>
      unfold register
      dsimp only
      by_cases hsub : issubclass c f.abstract = false
      · rw [if_pos hsub]
        exact hnd
      · rw [if_neg hsub]
        by_cases hany : f.plugins.any (fun p => p.id = c.id) = true
        · rw [if_pos hany]
          exact hnd
        · rw [if_neg hany]
          show ((f.plugins ++ [c]).map (fun p => p.id)).Nodup
          rw [List.map_append, List.nodup_append]
          refine ⟨hnd, by simp, ?_⟩
          intro i hi hic
          rcases List.mem_map.mp hi with ⟨p, hp, rfl⟩
          have hci : c.id = p.id := by
            rcases List.mem_map.mp hic with ⟨q, hq, hqe⟩
            have : q = c := by simpa using hq
            rw [← hqe, this]
          have : f.plugins.any (fun p => p.id = c.id) = true :=
            List.any_eq_true.mpr ⟨p, hp, by simp [← hci]⟩
          exact hany this

/-- Witness for the amended C2: one scan concretely yields only
plugin ids distinct from the abstract's (the `add_path` clause applied
at plugin id `2`), and `register` on the fresh factory preserves
distinctness (the `register` clause applied to the abstract itself). -/
theorem c2_amended_witness :
    (2 ∈ c2_state1.plugins.map (fun p => p.id) ∨ 2 ≠ c2_state1.abstract.id) ∧
    (((register baseFactory (.cls absC)).1).plugins.map
      (fun p => p.id)).Nodup :=
  ⟨c2_amended.1 envC2 c2_state1 "/p2" Mechanism.IMPORTABLE c2_state2 1 rfl 2
      (by decide),
    c2_amended.2 baseFactory (.cls absC) (by decide)⟩

/-! ### C3: versioned `request` -/

/-- **C3.**  On a registry with a versioning rule and a non-empty match
list of integer-versioned entries: for every requested version `v`, the
result is the *last* matching entry carrying `v` (the dict comprehension
is last-write-wins), in particular `none` when no matching entry carries
`v`; and with no version requested the result is the (last) entry at
the maximum version key. -/
theorem c3_request_versioning (f : Factory) (pid : PyVal)
    (hv : hasVersioning f = true)
    (hne : (matchingPlugins f pid).isEmpty = false)
    (hint : (matchingPlugins f pid).all
      (fun p => (get_version f p).isInt) = true) :
    (∀ v : PyVal, request f pid (some v) =
      ((matchingPlugins f pid).filter
        (fun p => decide (get_version f p = v))).getLast?) ∧
    (∀ v : PyVal, v ∉ (matchingPlugins f pid).map (get_version f) →
      request f pid (some v) = none) ∧
    (∃ m : Int,
      request f pid none =
        ((matchingPlugins f pid).filter
          (fun p => decide (get_version f p = PyVal.int m))).getLast? ∧
      request f pid none ≠ none ∧
      PyVal.int m ∈ (matchingPlugins f pid).map (get_version f) ∧
      ∀ z : Int,
        PyVal.int z ∈ (matchingPlugins f pid).map (get_version f) →
        z ≤ m) := by
  refine ⟨fun v => request_some_version f pid v hv hne, ?_, ?_⟩
  · intro v hv'
    rw [request_some_version f pid v hv hne]
    have hfil : (matchingPlugins f pid).filter
        (fun p => decide (get_version f p = v)) = [] := by
      rw [List.filter_eq_nil_iff]
      intro p hp hc
      exact hv' (List.mem_map.mpr ⟨p, hp, of_decide_eq_true hc⟩)
    rw [hfil]
    rfl
  · obtain ⟨m, hm, hmem, hall⟩ := request_none_version f pid hv hne hint
    refine ⟨m, hm, ?_, hmem, hall⟩
    rw [hm]
    rcases List.mem_map.mp hmem with ⟨p, hp, hpe⟩
    have hpf : p ∈ (matchingPlugins f pid).filter
        (fun p => decide (get_version f p = PyVal.int m)) :=
      List.mem_filter.mpr ⟨hp, by simp [hpe]⟩
    intro hc
    rw [List.getLast?_eq_none_iff] at hc
    rw [hc] at hpf
    simp at hpf

/-- A versioned plugin named `X` with object id `n` and version `v`. -/
def c3_cls (n : Nat) (v : Int) : PyClass :=
  { id := n, mro := [n, 1],
    attrs := fun s =>
      if s = "__name__" then .str "X"
      else if s = "version" then .int v else .noneV }

/-- A versioning registry holding `X` versions 1, 2, 3. -/
def c3_factory : Factory :=
  { abstract := absC, identifierKey := "__name__",
    versionKey := some "version",
    plugins := [c3_cls 11 1, c3_cls 12 2, c3_cls 13 3],
    pathRecord := [], logErrors := true }

/-- Witness for C3, the versioning example of the spec: with versions
`[1, 2, 3]` stored, `request("X", version=2)` returns the version-2
entry, `request("X", version=9)` returns nothing-found, and
`request("X")` returns the version-3 entry. -/
theorem c3_witness :
    request c3_factory (.str "X") (some (.int 2)) = some (c3_cls 12 2) ∧
    request c3_factory (.str "X") (some (.int 9)) = none ∧
    request c3_factory (.str "X") none = some (c3_cls 13 3) := by
  have h := c3_request_versioning c3_factory (.str "X") (by decide) (by decide)
    (by decide)
  refine ⟨?_, ?_, ?_⟩
  · rw [h.1 (.int 2)]
    rfl
  · rw [h.1 (.int 9)]
    rfl
  · obtain ⟨m, hm, -, hmem, hall⟩ := h.2.2
    have hmap : (matchingPlugins c3_factory (.str "X")).map
        (get_version c3_factory) = [.int 1, .int 2, .int 3] := by decide
    rw [hmap] at hmem
    have h3 : (3 : Int) ≤ m := hall 3 (by rw [hmap]; decide)
    have hm3 : m = 3 := by
      simp only [List.mem_cons, List.mem_singleton, PyVal.int.injEq,
        List.not_mem_nil, or_false] at hmem
      rcases hmem with h' | h' | h' <;> omega
    rw [hm3] at hm
    rw [hm]
    rfl

/-! ### C4: `register` then `request` -/

/-- When exactly one entry matches, `request` with no version argument
returns it, with or without versioning. -/
theorem request_singleton (f : Factory) (c : PyClass) (pid : PyVal)
    (hmm : matchingPlugins f pid = [c]) :
    request f pid none = some c := by
  unfold request
  rw [hmm]
  cases hver : hasVersioning f with
  | false => rfl
  | true =>
    show Option.map (fun kv => kv.2)
      (List.find? (fun kv => decide (kv.1 = get_version f c))
        [(get_version f c, c)]) = some c
    rw [List.find?_cons_of_pos _ (by simp)]
    rfl

/-- **C4.**  Registering a strict subtype of the abstract contract into
a registry that has no entry matching its identifier, then requesting
its resolved identifier with no version argument, succeeds and returns
that exact type object — with or without a versioning rule. -/
theorem c4_register_then_request (f : Factory) (c : PyClass)
    (hsub : f.abstract.id ∈ c.mro)
    (hstrict : c.id ≠ f.abstract.id)
    (hfresh : (matchingPlugins f (get_identifier f c)).isEmpty = true)
    (hids : f.plugins.all (fun p => p.id != c.id) = true) :
    (register f (.cls c)).2 = true ∧
    request (register f (.cls c)).1 (get_identifier f c) none = some c := by
  have hsubB : issubclass c f.abstract = true := by
    unfold issubclass
    exact decide_eq_true hsub
  have hany : f.plugins.any (fun p => p.id = c.id) = false := by
    rw [List.any_eq_false]
    intro p hp
    have := List.all_eq_true.mp hids p hp
    simp only [bne_iff_ne, ne_eq] at this
    simpa using this
  have hreg : register f (.cls c) =
      ({ f with plugins := f.plugins ++ [c] }, true) := by
    unfold register
    dsimp only
    rw [if_neg (by simp [hsubB]), if_neg (by simp [hany])]
  rw [hreg]
  refine ⟨rfl, ?_⟩
  have hmm : matchingPlugins { f with plugins := f.plugins ++ [c] }
      (get_identifier f c) = [c] := by
    show (f.plugins ++ [c]).filter
      (fun p => decide (get_identifier f p = get_identifier f c)) = [c]
    rw [List.filter_append]
    have h1 : f.plugins.filter
        (fun p => decide (get_identifier f p = get_identifier f c)) = [] := by
      have : matchingPlugins f (get_identifier f c) = [] :=
        List.isEmpty_iff.mp hfresh
      exact this
    rw [h1, List.nil_append, List.filter_cons_of_pos (by simp)]
    rfl
  exact request_singleton { f with plugins := f.plugins ++ [c] } c
    (get_identifier f c) hmm

/-- A plugin class named `W` (object id 4) subclassing `absC`. -/
def c4_cls : PyClass :=
  { id := 4, mro := [4, 1],
    attrs := fun s => if s = "__name__" then .str "W" else .noneV }

/-- Witness for C4 on the fresh registry. -/
theorem c4_witness :
    (register baseFactory (.cls c4_cls)).2 = true ∧
    request (register baseFactory (.cls c4_cls)).1
      (get_identifier baseFactory c4_cls) none = some c4_cls :=
  c4_register_then_request baseFactory c4_cls (by decide) (by decide)
    (by decide) (by decide)

/-! ### C5: the loading mechanism policy -/

/-- **C5.**  Per-candidate-file policy of `add_path`, as an exact
characterization of the per-file resolution: under `LOAD_SOURCE` the
result is exactly the direct-load outcome (address-based loading is
never consulted); under `IMPORTABLE` the result is a function of the
address-based outcome alone (direct loading is never consulted), and an
address-based module whose backing file does not match the candidate is
discarded, failing the file (`.ok none`); under `GUESS` address-based
loading is consulted first, its usable result is kept, and both the
nothing-found and the mismatched-backing-file outcomes fall through to
the direct-load outcome.  (A module lacking a `__file__` attribute
raises, cf. C1.) -/
theorem c5_mechanism_policy (env : Env) (fp : String) :
    resolve_module env Mechanism.LOAD_SOURCE fp = .ok (env.loadSource fp) ∧
    resolve_module env Mechanism.IMPORTABLE fp =
      (match mechanism_import env fp with
        | .error e => .error e
        | .ok none => .ok none
        | .ok (some mod) =>
          match mod.file with
          | none => .error PyErr.attributeError
          | some mf =>
            if is_same_path env mf fp then .ok (some mod) else .ok none) ∧
    resolve_module env Mechanism.GUESS fp =
      (match mechanism_import env fp with
        | .error e => .error e
        | .ok none => .ok (env.loadSource fp)
        | .ok (some mod) =>
          match mod.file with
          | none => .error PyErr.attributeError
          | some mf =>
            if is_same_path env mf fp then .ok (some mod)
            else .ok (env.loadSource fp)) := by
  refine ⟨rfl, ?_, ?_⟩
  · unfold resolve_module
    cases hmi : mechanism_import env fp with
    | error e => rfl
    | ok m =>
      cases m with
      | none => rfl
      | some mod =>
        dsimp
        cases hf : mod.file with
        | none => rfl
        | some mf =>
          dsimp only
          by_cases hs : is_same_path env mf fp = true
          · simp [hs]
          · simp [hs]
  · unfold resolve_module
    cases hmi : mechanism_import env fp with
    | error e => rfl
    | ok m =>
      cases m with
      | none => rfl
      | some mod =>
        dsimp
        cases hf : mod.file with
        | none => rfl
        | some mf =>
          dsimp only
          by_cases hs : is_same_path env mf fp = true
          · simp [hs]
          · simp [hs]

/-! ### C6: the `paths` constructor option -/

/-- A plugin class named `P` (object id 6) subclassing `absC`. -/
def c6_cls : PyClass :=
  { id := 6, mro := [6, 1],
    attrs := fun s => if s = "__name__" then .str "P" else .noneV }

/-- The module produced by direct-loading `/plugdir/plg.py`. -/
def c6_module : Module :=
  { id := 61, file := some "/plugdir/plg.py", members := [.cls c6_cls] }

/-- A host with a valid plugin directory `/plugdir` whose single
candidate file direct-loads to `c6_module`. -/
def envC6 : Env :=
  { isDir := fun p => p == "/plugdir"
    listing := fun p => if p == "/plugdir" then [("/plugdir", "plg.py")] else []
    importMod := fun _ => none
    pathExists := fun _ => false
    loadSource := fun fp => if fp == "/plugdir/plg.py" then some c6_module
                            else none
    norm := fun s => s }

/-- **C6, counterexample.**  The claim says each directory supplied via
the `paths` option is immediately scanned "whether paths is given as a
list of directories or as a single value".  On the code,
`isinstance(paths, (list, tuple, set))` silently drops a single
(non-collection) value: constructing with `paths="/plugdir"` scans
nothing and records no path, although the very same directory passed as
`["/plugdir"]` is valid, gets recorded and yields one plugin. -/
theorem c6_counterexample :
    (match factoryInit envC6 absC (.single "/plugdir") none none none
        (fun _ => none) Mechanism.LOAD_SOURCE true with
      | .ok f => f.pathRecord = [] ∧ f.plugins = []
      | .error _ => False) ∧
    envC6.isDir "/plugdir" = true ∧
    (match factoryInit envC6 absC (.list ["/plugdir"]) none none none
        (fun _ => none) Mechanism.LOAD_SOURCE true with
      | .ok f => f.pathRecord = [("/plugdir", Mechanism.LOAD_SOURCE)] ∧
          f.plugins.map (fun p => p.id) = [6]
      | .error _ => False) :=
  ⟨⟨rfl, rfl⟩, rfl, ⟨rfl, rfl⟩⟩

/-- Every `(p, m)` record present initially or introduced by scanning a
valid listed directory survives an `addPaths` fold that uses mechanism
`m` throughout. -/
theorem addPaths_record (env : Env) (l : List String) (m : Mechanism) :
    ∀ (f f' : Factory), addPaths env l m f = .ok f' →
      ∀ p : String,
        ((p, m) ∈ f.pathRecord ∨ (p ∈ l ∧ p ≠ "" ∧ env.isDir p = true)) →
        (p, m) ∈ f'.pathRecord := by
  induction l with
  | nil =>
    intro f f' h p hp
    cases h
    rcases hp with h' | ⟨h', -, -⟩
    · exact h'
    · simp at h'
  | cons q rest ih =>
    intro f f' h p hp
    unfold addPaths at h
    cases ha : add_path env f q m with
    | error e => rw [ha] at h; cases h
    | ok fn =>
      rw [ha] at h
      rcases hp with h' | ⟨hmem, hne, hdir⟩
      · exact ih fn.1 f' h p
          (Or.inl (add_path_record_preserved env f q m fn.1 fn.2 p ha h'))
      · rcases List.mem_cons.mp hmem with rfl | hrest
        · exact ih fn.1 f' h p
            (Or.inl (add_path_records env f p m fn.1 fn.2 ha hne hdir))
        · exact ih fn.1 f' h p (Or.inr ⟨hrest, hne, hdir⟩)

/-- **C6, amended.**  Directories supplied through `paths` are scanned
immediately (and recorded with the configured default mechanism) only
when `paths` is a `list`/`tuple`/`set`; a single non-collection value is
silently ignored, leaving the factory exactly as if no `paths` had been
given. -/
theorem c6_amended (env : Env) (abstract : PyClass) (l : List String)
    (s : String) (pid vid : Option String) (environ : String → Option String)
    (m : Mechanism) (le : Bool) :
    (∀ f', factoryInit env abstract (.list l) pid vid none environ m le =
        .ok f' →
      ∀ p ∈ l, p ≠ "" → env.isDir p = true → (p, m) ∈ f'.pathRecord) ∧
    factoryInit env abstract (.single s) pid vid none environ m le =
      factoryInit env abstract .noneArg pid vid none environ m le := by
  constructor
  · intro f' h p hp hne hdir
    unfold factoryInit at h
    dsimp only at h
    by_cases hl : l.isEmpty = true
    · rw [List.isEmpty_iff.mp hl] at hp
      simp at hp
    · rw [if_neg hl] at h
      cases ha : addPaths env l m (initBase abstract pid vid le) with
      | error e => rw [ha] at h; cases h
      | ok f1 =>
        rw [ha] at h
        dsimp only at h
        cases h
        exact addPaths_record env l m (initBase abstract pid vid le) f' ha p
          (Or.inr ⟨hp, hne, hdir⟩)
  · rfl

/-- Witness for the amended C6: the concrete list construction records
the valid directory with the configured mechanism. -/
theorem c6_amended_witness :
    ("/plugdir", Mechanism.LOAD_SOURCE) ∈
      (okInit (factoryInit envC6 absC (.list ["/plugdir"]) none none none
        (fun _ => none) Mechanism.LOAD_SOURCE true) baseFactory).pathRecord :=
  (c6_amended envC6 absC ["/plugdir"] "" none none (fun _ => none)
      Mechanism.LOAD_SOURCE true).1
    (okInit (factoryInit envC6 absC (.list ["/plugdir"]) none none none
      (fun _ => none) Mechanism.LOAD_SOURCE true) baseFactory)
    rfl "/plugdir" (by decide) (by decide) rfl

/-! ### C7: identifier/version attribute resolution -/

/-- Spec-side notion: is the value invocable with no arguments?  (Both
bound methods and plain zero-argument callables are.) -/
def isCallableNoArgs (v : PyVal) : Bool :=
  match v with
  | .boundMethod _ _ => true
  | .function _ _ => true
  | _ => false

/-- Spec-side notion: the result of calling the value with no arguments
(identity on non-callables). -/
def callNoArgs (v : PyVal) : PyVal :=
  match v with
  | .boundMethod _ r => r
  | .function _ r => r
  | v => v

/-- `inspect.ismethod`: true exactly for bound methods. -/
def isBoundMethod (v : PyVal) : Bool :=
  match v with
  | .boundMethod _ _ => true
  | _ => false

/-- A plugin whose configured identifier attribute is a zero-argument
*non-method* callable (e.g. a staticmethod) returning `"X"`. -/
def c7_cls : PyClass :=
  { id := 7, mro := [7, 1],
    attrs := fun s => if s = "ident" then .function 70 (.str "X")
                      else .noneV }

/-- A registry configured with identifier key `ident`. -/
def c7_factory : Factory :=
  { abstract := absC, identifierKey := "ident", versionKey := none,
    plugins := [c7_cls], pathRecord := [], logErrors := true }

/-- **C7, counterexample.**  The claim says the fetched attribute is
called "whenever that attribute is invocable with no arguments".  The
code's test is `inspect.ismethod`, which is false for a zero-argument
staticmethod-style callable: for such an attribute the claim's resolved
identifier would be the call result `"X"`, but `get_identifier` returns
the callable object itself. -/
theorem c7_counterexample :
    isCallableNoArgs (c7_cls.attrs c7_factory.identifierKey) = true ∧
    callNoArgs (c7_cls.attrs c7_factory.identifierKey) = .str "X" ∧
    get_identifier c7_factory c7_cls ≠ .str "X" ∧
    get_identifier c7_factory c7_cls = .function 70 (.str "X") := by
  refine ⟨rfl, rfl, by decide, rfl⟩

/-- **C7, amended.**  The fetched identifier (and version) attribute is
called exactly when it is a *bound method* (`inspect.ismethod`) — e.g. a
classmethod accessed on the type; any other attribute value, including a
zero-argument non-method callable, is used directly.  Under the default
identifier key the resolved identifier is the type's own `__name__`. -/
theorem c7_amended (f : Factory) (p : PyClass) (n : String) :
    get_identifier f p =
      (if isBoundMethod (p.attrs f.identifierKey) then
        callNoArgs (p.attrs f.identifierKey)
      else p.attrs f.identifierKey) ∧
    get_version f p =
      (if isBoundMethod (p.attrs (versionKeyStr f)) then
        callNoArgs (p.attrs (versionKeyStr f))
      else p.attrs (versionKeyStr f)) ∧
    (f.identifierKey = "__name__" → p.attrs "__name__" = .str n →
      get_identifier f p = .str n) := by
  refine ⟨?_, ?_, ?_⟩
  · unfold get_identifier resolveAttr
    cases p.attrs f.identifierKey <;> rfl
  · unfold get_version resolveAttr
    cases p.attrs (versionKeyStr f) <;> rfl
  · intro h1 h2
    unfold get_identifier
    rw [h1, h2]
    rfl

/-- Witness for the amended C7: the default key resolves to the type
name on a concrete plugin. -/
theorem c7_amended_witness :
    get_identifier baseFactory c4_cls = .str "W" :=
  (c7_amended baseFactory c4_cls "W").2.2 rfl rfl

/-! ### C8: one-character stems never match `_PY_CHECK` -/

theorem toList_mk (l : List Char) : (String.mk l).toList = l := rfl

theorem pyCheck_one_char_py (c : Char) :
    pyCheckMatches (String.mk [c, '.', 'p', 'y']) = false := by
  by_contra hc
  rw [Bool.not_eq_false] at hc
  unfold pyCheckMatches at hc
  simp only [toList_mk, List.any_eq_true, List.mem_range, Bool.and_eq_true,
    decide_eq_true_eq, Bool.or_eq_true, List.length_cons, List.length_nil] at hc
  obtain ⟨j, hj, i, hi, ⟨⟨⟨h1, h2⟩, -⟩, -⟩, h5⟩ := hc
  rcases h5 with hdrop | hdrop
  · have hlen := congrArg List.length hdrop
    simp only [List.length_drop, List.length_cons, List.length_nil] at hlen
    omega
  · have hlen := congrArg List.length hdrop
    simp only [List.length_drop, List.length_cons, List.length_nil] at hlen
    omega

theorem pyCheck_one_char_pyc (c : Char) :
    pyCheckMatches (String.mk [c, '.', 'p', 'y', 'c']) = false := by
  by_contra hc
  rw [Bool.not_eq_false] at hc
  unfold pyCheckMatches at hc
  simp only [toList_mk, List.any_eq_true, List.mem_range, Bool.and_eq_true,
    decide_eq_true_eq, Bool.or_eq_true, List.length_cons, List.length_nil] at hc
  obtain ⟨j, hj, i, hi, ⟨⟨⟨h1, h2⟩, -⟩, -⟩, h5⟩ := hc
  rcases h5 with hdrop | hdrop
  · have hlen := congrArg List.length hdrop
    simp only [List.length_drop, List.length_cons, List.length_nil] at hlen
    have hj2 : j = 2 := by omega
    rw [hj2] at hdrop
    rw [show List.drop 2 [c, '.', 'p', 'y', 'c'] = ['p', 'y', 'c'] from rfl]
      at hdrop
    exact absurd hdrop (by decide)
  · have hlen := congrArg List.length hdrop
    simp only [List.length_drop, List.length_cons, List.length_nil] at hlen
    omega

/-- Dropping non-matching filenames from a directory listing does not
change the candidate files `add_path` collates. -/
theorem candidateFiles_filter_out (env : Env) (path : String)
    (bad : String × String → Bool)
    (hbad : ∀ rf, bad rf = true → pyCheckMatches rf.2 = false) :
    candidateFiles env path =
      candidateFiles
        { env with listing := (fun q => (env.listing q).filter
            (fun rf => !(bad rf))) } path := by
  show (env.listing path).filterMap _ =
    ((env.listing path).filter (fun rf => !(bad rf))).filterMap _
  induction env.listing path with
  | nil => rfl
  | cons rf t ih =>
    by_cases hb : bad rf = true
    · rw [List.filter_cons_of_neg (by simp [hb])]
      rw [List.filterMap_cons, hbad rf hb]
      exact ih
    · rw [List.filter_cons_of_pos (by simp [Bool.not_eq_true] at hb ⊢; exact hb)]
      rw [List.filterMap_cons, List.filterMap_cons]
      cases hpc : pyCheckMatches rf.2 with
      | false => exact ih
      | true => rw [ih]

/-- **C8.**  A filename with a single character before its `.py` or
`.pyc` extension never matches `_PY_CHECK` (the pattern needs at least
two characters before the extension), so `add_path` skips such files:
removing them from the walked listing leaves the collated candidate
files unchanged. -/
theorem c8_single_char_stem_skipped (c : Char) (env : Env) (path : String) :
    pyCheckMatches (String.mk [c, '.', 'p', 'y']) = false ∧
    pyCheckMatches (String.mk [c, '.', 'p', 'y', 'c']) = false ∧
    candidateFiles env path =
      candidateFiles
        { env with listing := (fun q => (env.listing q).filter
            (fun rf => !(rf.2 == String.mk [c, '.', 'p', 'y'] ||
              rf.2 == String.mk [c, '.', 'p', 'y', 'c']))) } path := by
  refine ⟨pyCheck_one_char_py c, pyCheck_one_char_pyc c, ?_⟩
  apply candidateFiles_filter_out
  intro rf hb
  rcases Bool.or_eq_true_iff.mp hb with h' | h'
  · rw [beq_iff_eq.mp h']
    exact pyCheck_one_char_py c
  · rw [beq_iff_eq.mp h']
    exact pyCheck_one_char_pyc c

/-! ### C9: duplicated versions in `versions` vs `request` -/

/-- **C9.**  With versioning configured, `versions(identifier)` keeps
one occurrence of a version value per matching entry (duplicates
included: its multiset of values is exactly that of the matches), while
`request(identifier, version)` — even when two distinct entries share
that version — returns just the single last-written entry carrying
it. -/
theorem c9_versions_duplicates (f : Factory) (pid v : PyVal)
    (hv : hasVersioning f = true) :
    (versions f pid).count v =
      ((matchingPlugins f pid).map (get_version f)).count v ∧
    (2 ≤ ((matchingPlugins f pid).filter
        (fun p => decide (get_version f p = v))).length →
      ∃ p, request f pid (some v) = some p ∧ get_version f p = v ∧
        p ∈ matchingPlugins f pid) := by
  constructor
  · unfold versions
    rw [if_neg (by simp [hv])]
    exact List.Perm.count_eq
      (List.mergeSort_perm ((matchingPlugins f pid).map (get_version f)) pyLe) v
  · intro hfl
    have hfne : (matchingPlugins f pid).filter
        (fun p => decide (get_version f p = v)) ≠ [] := by
      intro hc
      rw [hc] at hfl
      simp at hfl
    have hne : (matchingPlugins f pid).isEmpty = false := by
      rw [List.isEmpty_eq_false]
      intro hc
      apply hfne
      rw [hc]
      rfl
    rw [request_some_version f pid v hv hne]
    refine ⟨((matchingPlugins f pid).filter
        (fun p => decide (get_version f p = v))).getLast hfne, ?_, ?_, ?_⟩
    · exact List.getLast?_eq_getLast_of_ne_nil hfne
    · have hmem := List.getLast_mem hfne
      exact of_decide_eq_true (List.mem_filter.mp hmem).2
    · have hmem := List.getLast_mem hfne
      exact (List.mem_filter.mp hmem).1

/-- A versioned plugin named `Y` with object id `n`, all at version 7. -/
def c9_cls (n : Nat) : PyClass :=
  { id := n, mro := [n, 1],
    attrs := fun s =>
      if s = "__name__" then .str "Y"
      else if s = "version" then .int 7 else .noneV }

/-- A versioning registry holding two distinct `Y` entries that report
the same version value 7. -/
def c9_factory : Factory :=
  { abstract := absC, identifierKey := "__name__",
    versionKey := some "version",
    plugins := [c9_cls 21, c9_cls 22],
    pathRecord := [], logErrors := true }

/-- Witness for C9: both entries contribute their shared version to
`versions` (count 2), while `request` at that version returns a single
entry. -/
theorem c9_witness :
    (versions c9_factory (.str "Y")).count (.int 7) = 2 ∧
    ∃ p, request c9_factory (.str "Y") (some (.int 7)) = some p ∧
      get_version c9_factory p = .int 7 := by
  have h := c9_versions_duplicates c9_factory (.str "Y") (.int 7) (by decide)
  constructor
  · rw [h.1]
    decide
  · obtain ⟨p, hp, hv', -⟩ := h.2 (by decide)
    exact ⟨p, hp, hv'⟩

/-! ### C10: path-record identity versus normalized removal -/

/-- **C10.**  The search-path record is keyed by the exact path string:
two textually different spellings of the same directory (equal under
path normalization) that are both valid directories are recorded as two
separate entries, and the second `add_path` call scans again (its
returned count adds onto the first); a single `remove_path` call with
either spelling rebuilds the record with every normalization-equal path
removed. -/
theorem c10_path_identity (env : Env) (f : Factory) (p₁ p₂ : String)
    (m : Mechanism) (f₁ f₂ f₃ : Factory) (n₁ n₂ : Nat)
    (hne : p₁ ≠ p₂)
    (hsame : is_same_path env p₁ p₂ = true)
    (hne1 : p₁ ≠ "") (hne2 : p₂ ≠ "")
    (hdir1 : env.isDir p₁ = true) (hdir2 : env.isDir p₂ = true)
    (h1 : add_path env f p₁ m = .ok (f₁, n₁))
    (h2 : add_path env f₁ p₂ m = .ok (f₂, n₂))
    (h3 : remove_path env f₂ p₁ = .ok f₃) :
    p₁ ∈ keysOf f₂.pathRecord ∧ p₂ ∈ keysOf f₂.pathRecord ∧
    f₂.plugins.length = f.plugins.length + n₁ + n₂ ∧
    (∀ q ∈ keysOf f₃.pathRecord, is_same_path env q p₁ = false) := by
  have hp1 : (p₁, m) ∈ f₂.pathRecord :=
    add_path_record_preserved env f₁ p₂ m f₂ n₂ p₁ h2
      (add_path_records env f p₁ m f₁ n₁ h1 hne1 hdir1)
  have hp2 : (p₂, m) ∈ f₂.pathRecord :=
    add_path_records env f₁ p₂ m f₂ n₂ h2 hne2 hdir2
  refine ⟨List.mem_map.mpr ⟨(p₁, m), hp1, rfl⟩,
    List.mem_map.mpr ⟨(p₂, m), hp2, rfl⟩, ?_, ?_⟩
  · obtain ⟨e1, he1, -, hn1⟩ := (add_path_ok env f p₁ m f₁ n₁ h1).2.2.2.2.1
    obtain ⟨e2, he2, -, hn2⟩ := (add_path_ok env f₁ p₂ m f₂ n₂ h2).2.2.2.2.1
    rw [he2, he1, List.length_append, List.length_append]
    omega
  · intro q hq
    unfold remove_path at h3
    have := scanPaths_keys env
      (f₂.pathRecord.filter (fun pm => is_same_path env pm.1 p₁ = false))
      { f₂ with plugins := [], pathRecord := [] } f₃ h3 q hq
    rcases this with h' | h'
    · simp [keysOf] at h'
    · rcases List.mem_map.mp h' with ⟨pm, hpm, rfl⟩
      have := (List.mem_filter.mp hpm).2
      simpa using this

/-- A plugin class named `D` (object id 10) subclassing `absC`. -/
def c10_cls : PyClass :=
  { id := 10, mro := [10, 1],
    attrs := fun s => if s = "__name__" then .str "D" else .noneV }

/-- The module produced by direct-loading `/d/mod.py`. -/
def c10_module : Module :=
  { id := 110, file := some "/d/mod.py", members := [.cls c10_cls] }

/-- A host where `/d` and `/d/` are two spellings of the same plugin
directory (`realpath` maps both to `/d`). -/
def envC10 : Env :=
  { isDir := fun p => p == "/d" || p == "/d/"
    listing := fun p =>
      if p == "/d" then [("/d", "mod.py")]
      else if p == "/d/" then [("/d/", "mod.py")]
      else []
    importMod := fun _ => none
    pathExists := fun _ => false
    loadSource := fun fp => if fp == "/d/mod.py" then some c10_module
                            else none
    norm := fun s => if s == "/d/" then "/d" else s }

/-- State after `add_path("/d")`. -/
def c10_f1 : Factory :=
  okFactory (add_path envC10 baseFactory "/d" Mechanism.LOAD_SOURCE)
    baseFactory

/-- State after also `add_path("/d/")` — same directory, respelled. -/
def c10_f2 : Factory :=
  okFactory (add_path envC10 c10_f1 "/d/" Mechanism.LOAD_SOURCE) baseFactory

/-- State after `remove_path("/d")`. -/
def c10_f3 : Factory := okInit (remove_path envC10 c10_f2 "/d") baseFactory

/-- Witness for C10: both spellings recorded, the plugin found twice,
and one `remove_path("/d")` call also removes the `"/d/"` record. -/
theorem c10_witness :
    "/d" ∈ keysOf c10_f2.pathRecord ∧ "/d/" ∈ keysOf c10_f2.pathRecord ∧
    c10_f2.plugins.length = baseFactory.plugins.length + 1 + 1 ∧
    "/d/" ∉ keysOf c10_f3.pathRecord := by
  have h := c10_path_identity envC10 baseFactory "/d" "/d/"
    Mechanism.LOAD_SOURCE c10_f1 c10_f2 c10_f3 1 1 (by decide) (by decide)
    (by decide) (by decide) (by decide) (by decide) rfl rfl rfl
  refine ⟨h.1, h.2.1, h.2.2.1, ?_⟩
  intro hq
  have hfalse := h.2.2.2 "/d/" hq
  have htrue : is_same_path envC10 "/d/" "/d" = true := by decide
  rw [htrue] at hfalse
  exact absurd hfalse (by decide)

end Factories
